import Mathlib

/-!
Verification of the game-theoretic core of the `openai-multiagent` repository.

The definitions below are a shallow embedding of the Python sources:
* `src/src/agents/types.py` (action enum),
* `src/src/agents/base_agent.py` (`AgentState`, trust updates, cooperation
  rates, knowledge sharing),
* `src/src/game_theory/payoff.py` (`PayoffCalculator`),
* `src/src/game_theory/strategies.py` (`Adaptive`),
* `src/src/game_theory/games.py` (the three games),
* `src/src/agents/coordinator.py` (`GameCoordinator.run_single_game`).

Python floats are modelled as rationals (`ℚ`); Python dicts keyed by agent
name are modelled as association lists in insertion order, which matches
dict iteration order.  Fallible paths are modelled with `Except`.
-/

/-- The action enum of `src/src/agents/types.py`. -/
inductive AgentAction
  | cooperate
  | defect
  | share_knowledge
  | withhold_knowledge
  deriving DecidableEq, Repr

/-- The membership test `action in [AgentAction.COOPERATE, AgentAction.SHARE_KNOWLEDGE]`
used throughout `payoff.py` and `base_agent.py` to classify an action as cooperative. -/
def isCooperative (a : AgentAction) : Bool :=
  a = AgentAction.cooperate ∨ a = AgentAction.share_knowledge

/-- `PayoffCalculator.calculate_cooperation_rate` of `src/src/game_theory/payoff.py`:
returns `0.0` on an empty list, otherwise the fraction of cooperative actions. -/
def PayoffCalculator.calculate_cooperation_rate (actions : List AgentAction) : ℚ :=
  if actions = [] then 0
  else (actions.countP isCooperative : ℚ) / actions.length

/-- Python truthiness of an optional string argument (`if agent_id:`):
`None` and the empty string are falsy. -/
def strTruthy : Option String → Bool
  | none => false
  | some s => s ≠ ""

/-- `BaseGameAgent.get_cooperation_rate` of `src/src/agents/base_agent.py`, as a
function of the agent's `cooperation_history` (a list of (peer, action) pairs)
and an optional peer id.  Returns `0.5` when the history is empty and when the
filtered action list is empty. -/
def BaseGameAgent.get_cooperation_rate (hist : List (String × AgentAction))
    (agent_id : Option String) : ℚ :=
  if hist = [] then 1/2
  else
    let agent_actions :=
      if strTruthy agent_id then
        ((hist.filter (fun p => p.1 = agent_id.getD "")).map (fun p => p.2))
      else hist.map (fun p => p.2)
    if agent_actions = [] then 1/2
    else (agent_actions.countP isCooperative : ℚ) / agent_actions.length

/-- Lookup in an association list in insertion order, the model of
`dict.get` / `in` on a Python dict keyed by agent name. -/
def lookupQ : List (String × ℚ) → String → Option ℚ
  | [], _ => none
  | p :: rest, k => if p.1 = k then some p.2 else lookupQ rest k

/-- The body of `AgentState.update_trust` of `src/src/agents/base_agent.py`
acting on the `trust_scores` dict: a missing entry for `agent_id` is first
created at `0.5` (appended, as Python dict insertion does); then the named
entry moves by `+0.1` (cooperation, capped at `1.0`) or `-0.2` (defection,
floored at `0.0`), and every other entry is multiplied by `1 - decay_rate`. -/
def trust_map_step (agent_id : String) (cooperation : Bool) (decay_rate : ℚ)
    (p : String × ℚ) : String × ℚ :=
  if p.1 = agent_id then
    (p.1, if cooperation then min 1 (p.2 + 1/10) else max 0 (p.2 - 1/5))
  else (p.1, p.2 * (1 - decay_rate))

def update_trust_scores (ts : List (String × ℚ)) (agent_id : String)
    (cooperation : Bool) (decay_rate : ℚ) : List (String × ℚ) :=
  let ts1 := if (lookupQ ts agent_id).isSome then ts else ts ++ [(agent_id, 1/2)]
  ts1.map (trust_map_step agent_id cooperation decay_rate)

/-- `AgentState` of `src/src/agents/base_agent.py`. -/
structure AgentState where
  trust_scores : List (String × ℚ) := []
  knowledge_base : List String := []
  cooperation_history : List (String × AgentAction) := []
  payoff_history : List ℚ := []
  reputation : ℚ := 1/2
  deriving Repr

/-- `AgentState.update_trust`: only the `trust_scores` field changes. -/
def AgentState.update_trust (s : AgentState) (agent_id : String)
    (cooperation : Bool) (decay_rate : ℚ) : AgentState :=
  { s with trust_scores := update_trust_scores s.trust_scores agent_id cooperation decay_rate }

/-- A finite sequence of `update_trust` calls with the default decay rate
`0.1`, folded over an `AgentState` (`src/src/agents/base_agent.py`). -/
def AgentState.apply_trust_updates (s : AgentState) (us : List (String × Bool)) : AgentState :=
  us.foldl (fun st u => st.update_trust u.1 u.2 (1/10)) s

/-- `GameType` of `src/src/game_theory/games.py`. -/
inductive GameType
  | prisoners_dilemma
  | public_goods
  | knowledge_sharing
  | coordination
  deriving DecidableEq, Repr

/-- `GameResult` of `src/src/game_theory/games.py` (the serialisable fields;
the free-form `additional_metrics` dict is omitted). -/
structure GameResult where
  game_type : GameType
  participants : List String
  rounds : ℕ
  actions_history : List (String × AgentAction)
  payoffs : List (String × ℚ)
  cooperation_rates : List (String × ℚ)
  winner : Option String

/-- `PrisonersDilemma` game state (`src/src/game_theory/games.py`):
`round_number` and `results_history` come from `BaseGame.__init__`,
`game_history` from `PrisonersDilemma.__init__`. -/
structure PrisonersDilemma where
  round_number : ℕ := 0
  results_history : List GameResult := []
  game_history : List (AgentAction × AgentAction) := []

/-- `BaseGame.reset`, inherited unchanged by `PrisonersDilemma`: it zeroes
`round_number` and clears `results_history`, nothing else. -/
def PrisonersDilemma.reset (g : PrisonersDilemma) : PrisonersDilemma :=
  { g with round_number := 0, results_history := [] }

/-- `PublicGoodsGame` game state (`src/src/game_theory/games.py`). -/
structure PublicGoodsGame where
  multiplier : ℚ := 2
  endowment : ℚ := 10
  round_number : ℕ := 0
  results_history : List GameResult := []
  contribution_history : List (List (String × ℚ)) := []

/-- `BaseGame.reset`, inherited unchanged by `PublicGoodsGame`. -/
def PublicGoodsGame.reset (g : PublicGoodsGame) : PublicGoodsGame :=
  { g with round_number := 0, results_history := [] }

/-- `KnowledgeSharingGame` game state (`src/src/game_theory/games.py`);
its static `knowledge_pool` of seed strings is omitted. -/
structure KnowledgeSharingGame where
  knowledge_value : ℚ := 2
  sharing_cost : ℚ := 1/2
  round_number : ℕ := 0
  results_history : List GameResult := []

/-- `BaseGame.reset`, inherited unchanged by `KnowledgeSharingGame`. -/
def KnowledgeSharingGame.reset (g : KnowledgeSharingGame) : KnowledgeSharingGame :=
  { g with round_number := 0, results_history := [] }

/-- One step of Python's `max(..., key=...)` scan: a later element replaces
the current best only when strictly greater. -/
def pyMaxStep (best q : String × ℚ) : String × ℚ :=
  if q.2 > best.2 then q else best

/-- Python's `max(total_payoffs.keys(), key=lambda k: total_payoffs[k])` over
a dict in insertion order: the first key attaining the maximal value.
Raises on an empty dict, modelled as `none`. -/
def pyMaxKey : List (String × ℚ) → Option String
  | [] => none
  | p :: rest => some ((rest.foldl pyMaxStep p).1)

/-- Winner computation of `PublicGoodsGame.play_full_game` (line 396). -/
def PublicGoodsGame.winner_of (total_payoffs : List (String × ℚ)) : Option String :=
  pyMaxKey total_payoffs

/-- Winner computation of `KnowledgeSharingGame.play_full_game` (line 563). -/
def KnowledgeSharingGame.winner_of (total_payoffs : List (String × ℚ)) : Option String :=
  pyMaxKey total_payoffs

/-- Winner computation of `PrisonersDilemma.play_full_game` (lines 240-243):
the max-payoff agent, overwritten with `None` on an exact tie. -/
def PrisonersDilemma.winner_of (n1 n2 : String) (p1 p2 : ℚ) : Option String :=
  let w := pyMaxKey [(n1, p1), (n2, p2)]
  if p1 = p2 then none else w

/-- Contribution rule of `PublicGoodsGame.play_round`
(`src/src/game_theory/games.py` line 306): a COOPERATE decision contributes
`0.8 × endowment`, anything else `0.2 × endowment`. -/
def pggContribution (endowment : ℚ) (a : AgentAction) : ℚ :=
  if a = AgentAction.cooperate then endowment * (8/10) else endowment * (2/10)

/-- Payoff computation of `PublicGoodsGame.play_round` (lines 318-325): the
pooled contributions are multiplied and split equally; each agent keeps its
uncontributed endowment plus the equal share.  The list is indexed like the
`agents` list; only the decisions matter for the payoffs. -/
def pggRoundPayoffs (endowment multiplier : ℚ) (actions : List AgentAction) : List ℚ :=
  let contributions := actions.map (pggContribution endowment)
  let total_contributions := contributions.sum
  let public_pool := total_contributions * multiplier
  let equal_share := public_pool / actions.length
  contributions.map (fun c => (endowment - c) + equal_share)

/-- An agent as the games see it: a name plus its `AgentState`
(`BaseGameAgent`, `src/src/agents/base_agent.py`). -/
structure GameAgent where
  name : String
  state : AgentState

/-- `BaseGameAgent.get_trust_score`: `self.state.trust_scores.get(agent_id, 0.5)`. -/
def GameAgent.get_trust_score (a : GameAgent) (agent_id : String) : ℚ :=
  (lookupQ a.state.trust_scores agent_id).getD (1/2)

/-- `BaseGameAgent.share_knowledge` acting on a knowledge base: each item not
already present is appended, preserving order and uniqueness. -/
def share_knowledge_list (kb : List String) (knowledge : List String) : List String :=
  knowledge.foldl (fun acc item => if item ∈ acc then acc else acc ++ [item]) kb

/-- The pairwise transfer of `KnowledgeSharingGame.play_round` (lines 487-493):
the sharer's offered items reach a given receiver exactly when the sharer is a
different agent, offered something, and the sharer's trust score for the
receiver exceeds `0.3`. -/
def ksgReceivedFrom (offered : String → List String) (sharer : GameAgent)
    (receiver_name : String) : List String :=
  if sharer.name ≠ receiver_name ∧ offered sharer.name ≠ []
      ∧ 3/10 < sharer.get_trust_score receiver_name
  then offered sharer.name else []

/-- The payoff credit a receiver gets from one sharer in
`KnowledgeSharingGame.play_round` (line 493): `knowledge_value` per item,
gated exactly like the transfer itself. -/
def ksgCreditFrom (knowledge_value : ℚ) (offered : String → List String)
    (sharer : GameAgent) (receiver_name : String) : ℚ :=
  if sharer.name ≠ receiver_name ∧ offered sharer.name ≠ []
      ∧ 3/10 < sharer.get_trust_score receiver_name
  then knowledge_value * (offered sharer.name).length else 0

/-- `knowledge_received[agent.name]` after the payoff loop of
`KnowledgeSharingGame.play_round`: the concatenation, in agent order, of every
sharer's gated contribution. -/
def ksgKnowledgeReceived (agents : List GameAgent) (offered : String → List String)
    (receiver_name : String) : List String :=
  (agents.map (fun o => ksgReceivedFrom offered o receiver_name)).flatten

/-- `payoffs[agent.name]` of `KnowledgeSharingGame.play_round` (lines 479-495):
the sharing cost is subtracted whenever the agent offered anything, and each
gated incoming share is credited. -/
def ksgPayoff (agents : List GameAgent) (offered : String → List String)
    (sharing_cost knowledge_value : ℚ) (a : GameAgent) : ℚ :=
  (if offered a.name = [] then 0 else 0 - sharing_cost * (offered a.name).length)
  + (agents.map (fun o => ksgCreditFrom knowledge_value offered o a.name)).sum

/-- A receiver's knowledge base after the transfer step (lines 497-500). -/
def ksgNewKnowledgeBase (agents : List GameAgent) (offered : String → List String)
    (r : GameAgent) : List String :=
  share_knowledge_list r.state.knowledge_base (ksgKnowledgeReceived agents offered r.name)

/-- Concrete two-agent instance for the C1 witness: the sharer trusts the
receiver at `0.5 > 0.3` and offers one item. -/
def ksgSampleSharer : GameAgent := ⟨"s", ⟨[("r", 1/2)], [], [], [], 1/2⟩⟩

def ksgSampleReceiver : GameAgent := ⟨"r", ⟨[], ["k0"], [], [], 1/2⟩⟩

def ksgSampleOffered : String → List String := fun n => if n = "s" then ["k1"] else []

/-- The deterministic probability update performed by `Adaptive.decide`
(`src/src/game_theory/strategies.py`, lines 268-291) when `round_number ≥ 1`:
if the trailing 5-round average payoff exceeds `3.0` the cooperation
probability is raised by `learning_rate × 0.1`; else if it is below `2.0` and
there is opponent history, the probability moves by
`(opponent cooperation rate over the trailing 5 actions − 0.5) × learning_rate`;
otherwise it is left alone; finally it is clamped to `[0, 1]`.
Python's `l[-5:]` is `drop (length - 5)`. -/
def adaptiveUpdate (learning_rate : ℚ) (payoff_history : List ℚ)
    (opponent_history : List AgentAction) (p : ℚ) : ℚ :=
  let p1 :=
    if payoff_history ≠ [] then
      let recent_payoffs := payoff_history.drop (payoff_history.length - 5)
      let avg_payoff := recent_payoffs.sum / (recent_payoffs.length : ℚ)
      if avg_payoff > 3 then p + learning_rate * (1/10)
      else if avg_payoff < 2 then
        if opponent_history ≠ [] then
          let recent_opponent_actions := opponent_history.drop (opponent_history.length - 5)
          let opponent_cooperation_rate :=
            (recent_opponent_actions.countP isCooperative : ℚ)
              / (recent_opponent_actions.length : ℚ)
          p + (opponent_cooperation_rate - 1/2) * learning_rate
        else p
      else p
    else p
  max 0 (min 1 p1)

/-- The validation prefix of `GameCoordinator.run_single_game`
(`src/src/agents/coordinator.py`, lines 136-140): named agents are looked up
in the registry, silently skipping names that are not registered, and the call
fails only when fewer than 2 of the named agents are registered. -/
def run_single_game_select (registered : List String) (agent_names : List String) :
    Except String (List String) :=
  let agents := agent_names.filter (fun n => registered.contains n)
  if agents.length < 2 then Except.error "Need at least 2 agents to run a game"
  else Except.ok agents

/-! ## Helper lemmas -/

/-- Lookup after the key-preserving map used in `update_trust_scores`. -/
theorem lookupQ_map_step (agent_id : String) (cooperation : Bool) (d : ℚ)
    (k : String) (ts : List (String × ℚ)) :
    lookupQ (ts.map (trust_map_step agent_id cooperation d)) k
      = (lookupQ ts k).map (fun v =>
          if k = agent_id then
            (if cooperation then min 1 (v + 1/10) else max 0 (v - 1/5))
          else v * (1 - d)) := by
  induction ts with
  | nil => rfl
  | cons p rest ih =>
    by_cases hp : p.1 = agent_id
    · by_cases hk : p.1 = k
      · have hka : k = agent_id := hk ▸ hp
        simp [lookupQ, trust_map_step, hp, hk, hka]
      · have hak : ¬ agent_id = k := fun h => hk (hp.trans h)
        simp [lookupQ, trust_map_step, hp, hk, hak, ih]
    · by_cases hk : p.1 = k
      · have hka : ¬ k = agent_id := fun h => hp (hk.trans h)
        simp [lookupQ, trust_map_step, hp, hk, hka]
      · simp [lookupQ, trust_map_step, hp, hk, ih]

/-- Lookup after appending a fresh entry at the end. -/
theorem lookupQ_append_single (ts : List (String × ℚ)) (agent_id k : String) (v : ℚ) :
    lookupQ (ts ++ [(agent_id, v)]) k
      = if (lookupQ ts k).isSome then lookupQ ts k
        else if agent_id = k then some v else none := by
  induction ts with
  | nil => simp [lookupQ]
  | cons p rest ih =>
    by_cases hk : p.1 = k
    · simp [lookupQ, hk]
    · simp [lookupQ, hk, ih]

/-- One `update_trust` call keeps every stored trust score in `[0, 1]`,
for any decay rate in `[0, 1]`. -/
theorem update_trust_scores_bounds (ts : List (String × ℚ)) (agent_id : String)
    (cooperation : Bool) (d : ℚ) (hd0 : 0 ≤ d) (hd1 : d ≤ 1)
    (h : ∀ p ∈ ts, 0 ≤ p.2 ∧ p.2 ≤ 1) :
    ∀ p ∈ update_trust_scores ts agent_id cooperation d, 0 ≤ p.2 ∧ p.2 ≤ 1 := by
  intro p hp
  simp only [update_trust_scores, List.mem_map] at hp
  obtain ⟨q, hq, rfl⟩ := hp
  have hq01 : 0 ≤ q.2 ∧ q.2 ≤ 1 := by
    by_cases hc : (lookupQ ts agent_id).isSome
    · rw [if_pos hc] at hq
      exact h q hq
    · rw [if_neg hc, List.mem_append] at hq
      rcases hq with hq | hq
      · exact h q hq
      · simp at hq
        rw [hq]
        norm_num
  obtain ⟨hq0, hq1⟩ := hq01
  rw [trust_map_step]
  by_cases hid : q.1 = agent_id
  · rw [if_pos hid]
    cases cooperation with
    | true =>
      refine ⟨le_min (by norm_num) (by linarith), ?_⟩
      simp [min_le_left]
    | false =>
      refine ⟨by simp [le_max_left], ?_⟩
      exact max_le (by norm_num) (by linarith)
  · rw [if_neg hid]
    constructor
    · exact mul_nonneg hq0 (by linarith)
    · exact mul_le_one₀ hq1 (by linarith) (by linarith)

/-- Folding `pyMaxStep` over elements that never strictly beat the
accumulator leaves the accumulator unchanged. -/
theorem foldl_pyMaxStep_of_le (p : String × ℚ) :
    ∀ l : List (String × ℚ), (∀ q ∈ l, q.2 ≤ p.2) → l.foldl pyMaxStep p = p := by
  intro l
  induction l with
  | nil => intro _; rfl
  | cons x xs ih =>
    intro h
    have hx : ¬ x.2 > p.2 := not_lt.mpr (h x (by simp))
    have : pyMaxStep p x = p := by rw [pyMaxStep, if_neg hx]
    rw [List.foldl_cons, this]
    exact ih (fun q hq => h q (by simp [hq]))

/-- The `pyMaxStep` fold reaches the first element that strictly beats
everything before it and weakly beats everything after it. -/
theorem foldl_pyMaxStep_reaches (p : String × ℚ) (l2 : List (String × ℚ))
    (h2 : ∀ q ∈ l2, q.2 ≤ p.2) :
    ∀ (l1 : List (String × ℚ)) (acc : String × ℚ), acc.2 < p.2 →
      (∀ q ∈ l1, q.2 < p.2) → (l1 ++ p :: l2).foldl pyMaxStep acc = p := by
  intro l1
  induction l1 with
  | nil =>
    intro acc hacc _
    have : pyMaxStep acc p = p := by rw [pyMaxStep, if_pos hacc]
    rw [List.nil_append, List.foldl_cons, this]
    exact foldl_pyMaxStep_of_le p l2 h2
  | cons x xs ih =>
    intro acc hacc h1
    rw [List.cons_append, List.foldl_cons]
    have hstep : (pyMaxStep acc x).2 < p.2 := by
      rw [pyMaxStep]
      by_cases hx : x.2 > acc.2
      · rw [if_pos hx]; exact h1 x (by simp)
      · rw [if_neg hx]; exact hacc
    exact ih (pyMaxStep acc x) hstep (fun q hq => h1 q (by simp [hq]))

/-- Membership in a knowledge base after `share_knowledge`. -/
theorem mem_share_knowledge_list (items : List String) :
    ∀ (kb : List String) (x : String),
      x ∈ share_knowledge_list kb items ↔ x ∈ kb ∨ x ∈ items := by
  induction items with
  | nil => intro kb x; simp [share_knowledge_list]
  | cons i is ih =>
    intro kb x
    show x ∈ share_knowledge_list (if i ∈ kb then kb else kb ++ [i]) is ↔ _
    rw [ih]
    by_cases hik : i ∈ kb
    · rw [if_pos hik]
      constructor
      · rintro (h | h)
        · exact Or.inl h
        · exact Or.inr (by simp [h])
      · rintro (h | h)
        · exact Or.inl h
        · rcases List.mem_cons.mp h with rfl | h
          · exact Or.inl hik
          · exact Or.inr h
    · rw [if_neg hik]
      simp [List.mem_append, List.mem_cons]
      tauto

/-- Count of a predicate over `List.replicate`. -/
theorem countP_replicate (p : AgentAction → Bool) (n : ℕ) (a : AgentAction) :
    (List.replicate n a).countP p = if p a then n else 0 := by
  induction n with
  | zero => simp
  | succ n ih =>
    rw [List.replicate_succ, List.countP_cons, ih]
    by_cases h : p a = true <;> simp [h]

/-! ## Claims -/

/-- Claim C1: in a `KnowledgeSharingGame` round, for any ordered pair of
distinct participants, the sharer's offered items are transferred to the
receiver (entering its knowledge base) and credited to the receiver at
`knowledge_value` per item exactly when the sharer's trust score for the
receiver exceeds `0.3`; with trust at most `0.3` nothing is transferred or
credited from that sharer; and the sharer's own round payoff is debited
`sharing_cost` per offered item regardless, plus whatever it receives. -/
theorem ksg_trust_gate (agents : List GameAgent) (offered : String → List String)
    (sharing_cost knowledge_value : ℚ) (s r : GameAgent)
    (hs : s ∈ agents) (hne : s.name ≠ r.name) :
    (3/10 < s.get_trust_score r.name →
      ksgReceivedFrom offered s r.name = offered s.name
      ∧ ksgCreditFrom knowledge_value offered s r.name
          = knowledge_value * (offered s.name).length
      ∧ ∀ x ∈ offered s.name, x ∈ ksgNewKnowledgeBase agents offered r)
    ∧ (s.get_trust_score r.name ≤ 3/10 →
      ksgReceivedFrom offered s r.name = []
      ∧ ksgCreditFrom knowledge_value offered s r.name = 0)
    ∧ ksgKnowledgeReceived agents offered r.name
        = (agents.map (fun o => ksgReceivedFrom offered o r.name)).flatten
    ∧ ksgPayoff agents offered sharing_cost knowledge_value s
        = 0 - sharing_cost * (offered s.name).length
          + (agents.map (fun o => ksgCreditFrom knowledge_value offered o s.name)).sum := by
  refine ⟨?_, ?_, rfl, ?_⟩
  · intro hgate
    by_cases hoff : offered s.name = []
    · refine ⟨?_, ?_, ?_⟩
      · rw [ksgReceivedFrom]
        split <;> simp [hoff]
      · rw [ksgCreditFrom]
        split <;> simp [hoff]
      · intro x hx
        rw [hoff] at hx
        exact absurd hx (List.not_mem_nil x)
    · have hcond : s.name ≠ r.name ∧ offered s.name ≠ []
          ∧ 3/10 < s.get_trust_score r.name := ⟨hne, hoff, hgate⟩
      refine ⟨by rw [ksgReceivedFrom, if_pos hcond], by rw [ksgCreditFrom, if_pos hcond], ?_⟩
      intro x hx
      rw [ksgNewKnowledgeBase, mem_share_knowledge_list]
      refine Or.inr ?_
      rw [ksgKnowledgeReceived, List.mem_flatten]
      refine ⟨ksgReceivedFrom offered s r.name, List.mem_map_of_mem _ hs, ?_⟩
      rw [ksgReceivedFrom, if_pos hcond]
      exact hx
  · intro hgate
    have hcond : ¬ (s.name ≠ r.name ∧ offered s.name ≠ []
        ∧ 3/10 < s.get_trust_score r.name) := by
      rintro ⟨-, -, h⟩
      exact absurd hgate (not_le.mpr h)
    exact ⟨by rw [ksgReceivedFrom, if_neg hcond], by rw [ksgCreditFrom, if_neg hcond]⟩
  · rw [ksgPayoff]
    by_cases hoff : offered s.name = []
    · rw [if_pos hoff, hoff]
      norm_num
    · rw [if_neg hoff]

/-- Witness for C1: the offered item "k1" lands in the receiver's knowledge
base and is credited at `knowledge_value = 2`. -/
theorem ksg_trust_gate_witness :
    ("k1" ∈ ksgNewKnowledgeBase [ksgSampleSharer, ksgSampleReceiver]
      ksgSampleOffered ksgSampleReceiver)
    ∧ ksgCreditFrom 2 ksgSampleOffered ksgSampleSharer "r" = 2 := by
  have hgate : 3/10 < ksgSampleSharer.get_trust_score "r" := by
    norm_num [GameAgent.get_trust_score, ksgSampleSharer, lookupQ]
  have h := (ksg_trust_gate [ksgSampleSharer, ksgSampleReceiver] ksgSampleOffered
    (1/2) 2 ksgSampleSharer ksgSampleReceiver (by simp) (by decide)).1 hgate
  refine ⟨h.2.2 "k1" (by simp [ksgSampleOffered, ksgSampleSharer]), ?_⟩
  show ksgCreditFrom 2 ksgSampleOffered ksgSampleSharer ksgSampleReceiver.name = 2
  rw [h.2.1]
  norm_num [ksgSampleOffered, ksgSampleSharer]

/-- Claim C2 counterexample: `reset()` does NOT empty the per-round history a
game accumulates.  A `PrisonersDilemma` whose `game_history` holds one played
round, and a `PublicGoodsGame` whose `contribution_history` holds one round of
contributions, keep those lists across `reset()`. -/
theorem reset_keeps_per_round_history :
    (PrisonersDilemma.reset
        { round_number := 3, results_history := [],
          game_history := [(AgentAction.cooperate, AgentAction.cooperate)] }).game_history
      = [(AgentAction.cooperate, AgentAction.cooperate)]
    ∧ (PrisonersDilemma.reset
        { round_number := 3, results_history := [],
          game_history := [(AgentAction.cooperate, AgentAction.cooperate)] }).game_history ≠ []
    ∧ (PublicGoodsGame.reset
        { multiplier := 2, endowment := 10, round_number := 1, results_history := [],
          contribution_history := [[("A", 8)]] }).contribution_history ≠ [] := by
  refine ⟨rfl, ?_, ?_⟩ <;> simp [PrisonersDilemma.reset, PublicGoodsGame.reset]

/-- Claim C2, amended: for each of the three games, `reset()` sets the round
counter to `0` and empties `results_history` (the list of completed-game
`GameResult`s), while leaving every other game field — in particular the
per-round `game_history` of `PrisonersDilemma` and `contribution_history` of
`PublicGoodsGame` — unchanged.  `reset` takes no agent and reads or writes no
`AgentState`, so every agent's state is trivially untouched. -/
theorem reset_spec :
    (∀ g : PrisonersDilemma,
      g.reset.round_number = 0 ∧ g.reset.results_history = []
      ∧ g.reset.game_history = g.game_history)
    ∧ (∀ g : PublicGoodsGame,
      g.reset.round_number = 0 ∧ g.reset.results_history = []
      ∧ g.reset.contribution_history = g.contribution_history
      ∧ g.reset.multiplier = g.multiplier ∧ g.reset.endowment = g.endowment)
    ∧ (∀ g : KnowledgeSharingGame,
      g.reset.round_number = 0 ∧ g.reset.results_history = []
      ∧ g.reset.knowledge_value = g.knowledge_value
      ∧ g.reset.sharing_cost = g.sharing_cost) :=
  ⟨fun _ => ⟨rfl, rfl, rfl⟩, fun _ => ⟨rfl, rfl, rfl, rfl, rfl⟩, fun _ => ⟨rfl, rfl, rfl, rfl⟩⟩

/-- Claim C3 counterexample: with payoff history `[2.5]` (trailing average
`2.5`, not above `3.0`) and a fully cooperative opponent, the code leaves the
cooperation probability at `0.5`, whereas the claim's "otherwise adjust toward
the opponent's cooperation rate" would give `0.5 + (1 − 0.5)·0.1 = 0.55`. -/
theorem adaptive_middle_band_counterexample :
    adaptiveUpdate (1/10) [5/2] [AgentAction.cooperate] (1/2) = 1/2
    ∧ max 0 (min 1 ((1:ℚ)/2 + ((1:ℚ) - 1/2) * (1/10))) = 11/20
    ∧ (1/2 : ℚ) ≠ 11/20 := by
  refine ⟨?_, by norm_num [min_def, max_def], by norm_num⟩
  norm_num [adaptiveUpdate, min_def, max_def]

/-- Claim C3, amended: on a `decide` call with `round_number ≥ 1` and
non-empty payoff history, the cooperation probability is raised by
`learning_rate × 0.1` when the trailing 5-round average payoff exceeds `3.0`;
it is adjusted by `(opponent cooperation rate − 0.5) × learning_rate` only
when that average is below `2.0` (and opponent history is non-empty); for an
average in `[2.0, 3.0]` — and for a sub-`2.0` average with no opponent
history — it is left unchanged; in every case the result is clamped to `[0, 1]`. -/
theorem adaptive_update_spec (lr p : ℚ) (ph : List ℚ) (oh : List AgentAction)
    (hph : ph ≠ []) :
    ((ph.drop (ph.length - 5)).sum / ((ph.drop (ph.length - 5)).length : ℚ) > 3 →
      adaptiveUpdate lr ph oh p = max 0 (min 1 (p + lr * (1/10))))
    ∧ ((ph.drop (ph.length - 5)).sum / ((ph.drop (ph.length - 5)).length : ℚ) < 2 →
        oh ≠ [] →
      adaptiveUpdate lr ph oh p
        = max 0 (min 1 (p +
            (((oh.drop (oh.length - 5)).countP isCooperative : ℚ)
                / ((oh.drop (oh.length - 5)).length : ℚ) - 1/2) * lr)))
    ∧ ((ph.drop (ph.length - 5)).sum / ((ph.drop (ph.length - 5)).length : ℚ) < 2 →
        oh = [] →
      adaptiveUpdate lr ph oh p = max 0 (min 1 p))
    ∧ (2 ≤ (ph.drop (ph.length - 5)).sum / ((ph.drop (ph.length - 5)).length : ℚ) →
        (ph.drop (ph.length - 5)).sum / ((ph.drop (ph.length - 5)).length : ℚ) ≤ 3 →
      adaptiveUpdate lr ph oh p = max 0 (min 1 p)) := by
  refine ⟨?_, ?_, ?_, ?_⟩
  · intro havg
    simp only [adaptiveUpdate]
    rw [if_pos hph, if_pos havg]
  · intro havg hoh
    simp only [adaptiveUpdate]
    rw [if_pos hph, if_neg (by linarith), if_pos havg, if_pos hoh]
  · intro havg hoh
    simp only [adaptiveUpdate]
    rw [if_pos hph, if_neg (by linarith), if_pos havg, if_neg (by simp [hoh])]
  · intro h2 h3
    simp only [adaptiveUpdate]
    rw [if_pos hph, if_neg (not_lt.mpr h3), if_neg (not_lt.mpr h2)]

/-- Witness for C3 (amended): payoff history `[4]` has trailing average
`4 > 3`, so the probability rises from `0.5` to `0.51`. -/
theorem adaptive_update_spec_witness :
    adaptiveUpdate (1/10) [4] [] (1/2) = 51/100 := by
  have h := (adaptive_update_spec (1/10) (1/2) [4] [] (by simp)).1 (by norm_num)
  rw [h]
  norm_num [min_def, max_def]

/-- Claim C4 counterexample: with agents "A" and "B" registered, asking for
`["A", "B", "C"]` where "C" is unknown does not raise; the game proceeds with
the registered subset `["A", "B"]`. -/
theorem run_single_game_unknown_name_counterexample :
    run_single_game_select ["A", "B"] ["A", "B", "C"] = Except.ok ["A", "B"]
    ∧ ¬ ("C" ∈ (["A", "B"] : List String)) :=
  ⟨rfl, by decide⟩

/-- Claim C4, amended: `run_single_game` silently drops agent names missing
from the registry; it raises (before any round is played) exactly when fewer
than 2 of the named agents are registered, and otherwise proceeds with the
registered subset, in the order named. -/
theorem run_single_game_select_spec (registered agent_names : List String) :
    ((agent_names.filter (fun n => registered.contains n)).length < 2 ↔
      run_single_game_select registered agent_names
        = Except.error "Need at least 2 agents to run a game")
    ∧ (2 ≤ (agent_names.filter (fun n => registered.contains n)).length →
      run_single_game_select registered agent_names
        = Except.ok (agent_names.filter (fun n => registered.contains n))) := by
  constructor
  · constructor
    · intro h
      simp only [run_single_game_select]
      rw [if_pos h]
    · intro h
      by_contra hlt
      simp only [run_single_game_select] at h
      rw [if_neg hlt] at h
      exact Except.noConfusion h
  · intro h
    simp only [run_single_game_select]
    rw [if_neg (not_lt.mpr h)]

/-- Witness for C4 (amended): both named agents registered, order preserved. -/
theorem run_single_game_select_spec_witness :
    run_single_game_select ["A", "B"] ["B", "A"] = Except.ok ["B", "A"] :=
  (run_single_game_select_spec ["A", "B"] ["B", "A"]).2 (by decide)

/-- Claim C5: `update_trust` sets the named peer's trust to
`min 1 (old + 0.1)` on cooperation and `max 0 (old - 0.2)` on defection
(missing entries read as `0.5`), multiplies every other recorded peer's score
by `1 - decay_rate`, and leaves every other `AgentState` field unchanged. -/
theorem update_trust_spec (s : AgentState) (agent_id : String)
    (cooperation : Bool) (d : ℚ) :
    (lookupQ (s.update_trust agent_id cooperation d).trust_scores agent_id
      = some (if cooperation
          then min 1 ((lookupQ s.trust_scores agent_id).getD (1/2) + 1/10)
          else max 0 ((lookupQ s.trust_scores agent_id).getD (1/2) - 1/5)))
    ∧ (∀ k, k ≠ agent_id →
        lookupQ (s.update_trust agent_id cooperation d).trust_scores k
          = (lookupQ s.trust_scores k).map (fun v => v * (1 - d)))
    ∧ (s.update_trust agent_id cooperation d).knowledge_base = s.knowledge_base
    ∧ (s.update_trust agent_id cooperation d).cooperation_history = s.cooperation_history
    ∧ (s.update_trust agent_id cooperation d).payoff_history = s.payoff_history
    ∧ (s.update_trust agent_id cooperation d).reputation = s.reputation := by
  refine ⟨?_, ?_, rfl, rfl, rfl, rfl⟩
  · show lookupQ (update_trust_scores s.trust_scores agent_id cooperation d) agent_id = _
    simp only [update_trust_scores]
    cases hlk : lookupQ s.trust_scores agent_id with
    | some v =>
      simp only [hlk, Option.isSome_some, if_true]
      rw [lookupQ_map_step]
      simp [hlk]
    | none =>
      simp only [hlk, Option.isSome_none, Bool.false_eq_true, if_false, List.map_append]
      have hstep : List.map (trust_map_step agent_id cooperation d) [(agent_id, (1:ℚ)/2)]
          = [(agent_id, if cooperation then min 1 ((1:ℚ)/2 + 1/10)
              else max 0 ((1:ℚ)/2 - 1/5))] := by
        simp [trust_map_step]
      rw [hstep, lookupQ_append_single, lookupQ_map_step, hlk]
      simp
  · intro k hk
    show lookupQ (update_trust_scores s.trust_scores agent_id cooperation d) k = _
    simp only [update_trust_scores]
    cases hlk : lookupQ s.trust_scores agent_id with
    | some v =>
      simp only [hlk, Option.isSome_some, if_true]
      rw [lookupQ_map_step]
      simp [hk]
    | none =>
      simp only [hlk, Option.isSome_none, Bool.false_eq_true, if_false, List.map_append]
      have hstep : List.map (trust_map_step agent_id cooperation d) [(agent_id, (1:ℚ)/2)]
          = [(agent_id, if cooperation then min 1 ((1:ℚ)/2 + 1/10)
              else max 0 ((1:ℚ)/2 - 1/5))] := by
        simp [trust_map_step]
      rw [hstep, lookupQ_append_single, lookupQ_map_step]
      cases hlkk : lookupQ s.trust_scores k with
      | some w => simp [hk]
      | none =>
        have hak : ¬ agent_id = k := fun h => hk h.symm
        simp [hak]

/-- Witness for C5: peer "b" at trust `0.5` decays to `0.45` when "a" is updated. -/
theorem update_trust_spec_witness :
    lookupQ (AgentState.update_trust
        ⟨[("b", 1/2)], [], [], [], 1/2⟩ "a" true (1/10)).trust_scores "b"
      = some (9/20) := by
  have h := (update_trust_spec ⟨[("b", 1/2)], [], [], [], 1/2⟩ "a" true (1/10)).2.1
    "b" (by decide)
  rw [h]
  norm_num [lookupQ]

/-- Claim C6: starting from trust scores all in `[0, 1]`, any finite sequence
of `update_trust` calls (any peers, any cooperation flags, default decay rate
`0.1`) leaves every stored trust score in `[0, 1]`. -/
theorem trust_scores_stay_in_unit_interval (s : AgentState) (us : List (String × Bool))
    (h : ∀ p ∈ s.trust_scores, 0 ≤ p.2 ∧ p.2 ≤ 1) :
    ∀ p ∈ (s.apply_trust_updates us).trust_scores, 0 ≤ p.2 ∧ p.2 ≤ 1 := by
  induction us generalizing s with
  | nil => exact h
  | cons u rest ih =>
    have hstep : ∀ p ∈ (s.update_trust u.1 u.2 (1/10)).trust_scores, 0 ≤ p.2 ∧ p.2 ≤ 1 :=
      update_trust_scores_bounds s.trust_scores u.1 u.2 (1/10)
        (by norm_num) (by norm_num) h
    exact ih (s.update_trust u.1 u.2 (1/10)) hstep

/-- Witness for C6: two updates starting from trust `{"x": 1}`. -/
theorem trust_scores_stay_in_unit_interval_witness :
    (("x", (18:ℚ)/25) ∈ (AgentState.apply_trust_updates
        ⟨[("x", 1)], [], [], [], 1/2⟩ [("x", false), ("y", true)]).trust_scores)
    ∧ (0 ≤ (18:ℚ)/25 ∧ (18:ℚ)/25 ≤ 1) := by
  have hmem : (AgentState.apply_trust_updates
      ⟨[("x", 1)], [], [], [], 1/2⟩ [("x", false), ("y", true)]).trust_scores
      = [("x", 18/25), ("y", 3/5)] := by
    have hxy : ¬ ("x" : String) = "y" := by decide
    have hyx : ¬ ("y" : String) = "x" := by decide
    norm_num [AgentState.apply_trust_updates, AgentState.update_trust,
      update_trust_scores, trust_map_step, lookupQ, hxy, hyx, min_def, max_def]
  have hm : ("x", (18:ℚ)/25) ∈ (AgentState.apply_trust_updates
      ⟨[("x", 1)], [], [], [], 1/2⟩ [("x", false), ("y", true)]).trust_scores := by
    rw [hmem]; simp
  exact ⟨hm, trust_scores_stay_in_unit_interval
    ⟨[("x", 1)], [], [], [], 1/2⟩ [("x", false), ("y", true)]
    (by norm_num) ("x", 18/25) hm⟩

/-- Claim C7: in a `PublicGoodsGame` round with endowment `E` and multiplier
`m` in which all `k` agents cooperate (`k > 0`), every agent's payoff is
`0.2·E + 0.8·E·m`, independent of `k`. -/
theorem pgg_all_cooperate_payoff (k : ℕ) (hk : 0 < k) (E m : ℚ) :
    ∀ p ∈ pggRoundPayoffs E m (List.replicate k AgentAction.cooperate),
      p = E * (2/10) + E * (8/10) * m := by
  intro p hp
  simp only [pggRoundPayoffs, List.map_replicate, pggContribution, if_pos rfl,
    List.length_replicate, List.sum_replicate, List.mem_map, List.mem_replicate] at hp
  obtain ⟨c, ⟨-, rfl⟩, rfl⟩ := hp
  have hk0 : (k : ℚ) ≠ 0 := by exact_mod_cast Nat.pos_iff_ne_zero.mp hk
  rw [nsmul_eq_mul]
  field_simp
  ring

/-- Witness for C7 at `k = 2`, `E = 10`, `m = 2`: each payoff is `18`. -/
theorem pgg_all_cooperate_payoff_witness :
    ((18 : ℚ) ∈ pggRoundPayoffs 10 2 (List.replicate 2 AgentAction.cooperate))
    ∧ (18 : ℚ) = 10 * (2/10) + 10 * (8/10) * 2 := by
  have hmem : (18 : ℚ) ∈ pggRoundPayoffs 10 2 (List.replicate 2 AgentAction.cooperate) := by
    norm_num [pggRoundPayoffs, pggContribution, List.replicate]
  exact ⟨hmem, pgg_all_cooperate_payoff 2 (by norm_num) 10 2 18 hmem⟩

/-- Claim C8: `calculate_cooperation_rate` returns `0` on the empty list
without raising; on a non-empty list it returns `cooperative_count / length`,
where an action is cooperative iff it is COOPERATE or SHARE_KNOWLEDGE; in
particular it returns `1` on `n` copies of COOPERATE for every `n > 0`. -/
theorem calculate_cooperation_rate_spec :
    PayoffCalculator.calculate_cooperation_rate [] = 0
    ∧ (∀ actions : List AgentAction, actions ≠ [] →
        PayoffCalculator.calculate_cooperation_rate actions
          = (actions.countP isCooperative : ℚ) / actions.length)
    ∧ (∀ a : AgentAction,
        isCooperative a = true ↔ (a = AgentAction.cooperate ∨ a = AgentAction.share_knowledge))
    ∧ (∀ n : ℕ, 0 < n →
        PayoffCalculator.calculate_cooperation_rate (List.replicate n AgentAction.cooperate) = 1) := by
  refine ⟨rfl, ?_, ?_, ?_⟩
  · intro actions h
    simp [PayoffCalculator.calculate_cooperation_rate, h]
  · intro a
    simp [isCooperative]
  · intro n hn
    have hne : List.replicate n AgentAction.cooperate ≠ [] := by
      intro h
      have := congrArg List.length h
      simp at this
      omega
    rw [PayoffCalculator.calculate_cooperation_rate, if_neg hne,
      countP_replicate, List.length_replicate]
    have : isCooperative AgentAction.cooperate = true := by decide
    rw [if_pos this]
    have hn0 : (n : ℚ) ≠ 0 := by exact_mod_cast Nat.pos_iff_ne_zero.mp hn
    field_simp

/-- Witness for C8 at `n = 3`. -/
theorem calculate_cooperation_rate_spec_witness :
    PayoffCalculator.calculate_cooperation_rate
      (List.replicate 3 AgentAction.cooperate) = 1 :=
  calculate_cooperation_rate_spec.2.2.2 3 (by decide)

/-- Claim C9: `BaseGameAgent.get_cooperation_rate` returns `0.5` (not `0`)
both on an empty cooperation history and when a peer id is given that matches
no recorded interaction, in contrast with `calculate_cooperation_rate`,
which returns `0` on empty input. -/
theorem get_cooperation_rate_empty_default :
    (∀ aid : Option String, BaseGameAgent.get_cooperation_rate [] aid = 1/2)
    ∧ (∀ (hist : List (String × AgentAction)) (id : String), id ≠ "" →
        hist.filter (fun p => p.1 = id) = [] →
        BaseGameAgent.get_cooperation_rate hist (some id) = 1/2)
    ∧ PayoffCalculator.calculate_cooperation_rate [] = 0
    ∧ (1/2 : ℚ) ≠ 0 := by
  refine ⟨?_, ?_, rfl, by norm_num⟩
  · intro aid
    rfl
  · intro hist id hid hfilter
    rw [BaseGameAgent.get_cooperation_rate]
    by_cases h : hist = []
    · rw [if_pos h]
    · rw [if_neg h]
      have ht : strTruthy (some id) = true := by
        simp [strTruthy, hid]
      simp [ht, Option.getD_some, hfilter]

/-- Witness for C9: a one-entry history for peer "b", queried for peer "a". -/
theorem get_cooperation_rate_empty_default_witness :
    BaseGameAgent.get_cooperation_rate [("b", AgentAction.defect)] (some "a") = 1/2 :=
  get_cooperation_rate_empty_default.2.1 [("b", AgentAction.defect)] "a"
    (by decide) (by decide)

/-- Claim C10: `PublicGoodsGame.play_full_game` and
`KnowledgeSharingGame.play_full_game` always pick as winner the first agent
attaining the maximal total payoff — never `None`, even on a tie — while only
`PrisonersDilemma.play_full_game` turns an exact payoff tie into `winner = None`. -/
theorem winner_selection_spec :
    (∀ (l1 : List (String × ℚ)) (p : String × ℚ) (l2 : List (String × ℚ)),
      (∀ q ∈ l1, q.2 < p.2) → (∀ q ∈ l2, q.2 ≤ p.2) →
      PublicGoodsGame.winner_of (l1 ++ p :: l2) = some p.1
      ∧ KnowledgeSharingGame.winner_of (l1 ++ p :: l2) = some p.1)
    ∧ (∀ l : List (String × ℚ), l ≠ [] →
      (PublicGoodsGame.winner_of l).isSome ∧ (KnowledgeSharingGame.winner_of l).isSome)
    ∧ (∀ (n1 n2 : String) (x : ℚ), PrisonersDilemma.winner_of n1 n2 x x = none)
    ∧ (∀ (n1 n2 : String) (p1 p2 : ℚ), p1 ≠ p2 →
      PrisonersDilemma.winner_of n1 n2 p1 p2 = pyMaxKey [(n1, p1), (n2, p2)]) := by
  have hmax : ∀ (l1 : List (String × ℚ)) (p : String × ℚ) (l2 : List (String × ℚ)),
      (∀ q ∈ l1, q.2 < p.2) → (∀ q ∈ l2, q.2 ≤ p.2) →
      pyMaxKey (l1 ++ p :: l2) = some p.1 := by
    intro l1 p l2 h1 h2
    cases l1 with
    | nil =>
      rw [List.nil_append, pyMaxKey, foldl_pyMaxStep_of_le p l2 h2]
    | cons x xs =>
      rw [List.cons_append, pyMaxKey,
        foldl_pyMaxStep_reaches p l2 h2 xs x (h1 x (by simp))
          (fun q hq => h1 q (by simp [hq]))]
  refine ⟨?_, ?_, ?_, ?_⟩
  · intro l1 p l2 h1 h2
    exact ⟨hmax l1 p l2 h1 h2, hmax l1 p l2 h1 h2⟩
  · intro l hl
    cases l with
    | nil => exact absurd rfl hl
    | cons p rest => exact ⟨rfl, rfl⟩
  · intro n1 n2 x
    rw [PrisonersDilemma.winner_of, if_pos rfl]
  · intro n1 n2 p1 p2 h
    rw [PrisonersDilemma.winner_of, if_neg h]

/-- Witness for C10: with totals A=1, B=2, C=2, both N-player games pick "B"
(first maximal), and a Prisoner's Dilemma tie at 30 yields no winner. -/
theorem winner_selection_spec_witness :
    PublicGoodsGame.winner_of [("A", 1), ("B", 2), ("C", 2)] = some "B"
    ∧ KnowledgeSharingGame.winner_of [("A", 1), ("B", 2), ("C", 2)] = some "B"
    ∧ PrisonersDilemma.winner_of "A" "B" 30 30 = none := by
  have h := winner_selection_spec.1 [("A", (1:ℚ))] ("B", 2) [("C", 2)]
    (by norm_num) (by norm_num)
  exact ⟨h.1, h.2, winner_selection_spec.2.2.1 "A" "B" 30⟩
